import Mathlib

/-!
Verification development for the Authorino auth-pipeline core.

Go strings are modelled as `List Char` (`Str`).  Helper functions mirror the
Go standard-library functions used by the source (`strings.Split` with a
one-character separator, `strings.TrimSpace` restricted to ASCII space
characters, `strings.HasPrefix`/`strings.TrimPrefix` fused into an
`Option`-returning helper).  Fallible Go functions returning `(T, error)`
become functions into an explicit result type; a reachable Go runtime panic
(out-of-range index, `regexp.MustCompile` failure) is a distinguished
`panicked` constructor rather than undefined behaviour.
-/

namespace Authorino

abbrev Str := List Char

/-- ASCII whitespace recognised by the model of Go `strings.TrimSpace`. -/
def isSpaceGo (c : Char) : Bool :=
  c = ' ' || c = '\t' || c = '\n' || c = '\r'

/-- Model of Go `strings.TrimSpace` (restricted to ASCII space characters). -/
def trimSpaceGo (s : Str) : Str :=
  ((s.dropWhile isSpaceGo).reverse.dropWhile isSpaceGo).reverse

/-- Model of Go `strings.Split` with a one-character separator: the list of
maximal separator-free substrings; always non-empty. -/
def splitChar (sep : Char) : Str → List Str
  | [] => [[]]
  | c :: rest =>
    match splitChar sep rest with
    | [] => [[c]]
    | piece :: pieces =>
      if c = sep then [] :: piece :: pieces else (c :: piece) :: pieces

/-- Fused model of Go `strings.HasPrefix` + `strings.TrimPrefix`:
`dropPrefixGo pre s = some w` exactly when `s = pre ++ w`. -/
def dropPrefixGo : Str → Str → Option Str
  | [], s => some s
  | _ :: _, [] => none
  | p :: ps, c :: cs => if p = c then dropPrefixGo ps cs else none

/-- Go map assignment `m[k] = v` on an association-list model of a Go map:
overwrite the entry in place if the key is present, append otherwise. -/
def goMapInsert {K A : Type} [DecidableEq K] : List (K × A) → K → A → List (K × A)
  | [], k, v => [(k, v)]
  | (k', v') :: rest, k, v =>
    if k' = k then (k, v) :: rest else (k', v') :: goMapInsert rest k v

/-- Go map read `m[k]` on the association-list model. -/
def goMapLookup {K A : Type} [DecidableEq K] : List (K × A) → K → Option A
  | [], _ => none
  | (k', v') :: rest, k => if k' = k then some v' else goMapLookup rest k

/-! ## Credential locator (src/unnamed/part_000, package auth_credentials) -/

/-- Result of a credential-extraction function: the Go pair `(string, error)`
with a distinguished constructor for a reachable runtime panic. -/
inductive CredResult where
  | ok (cred : Str)
  | err (msg : Str)
  | panicked (msg : Str)
deriving DecidableEq, Repr

/-- `credentialNotFoundMsg` from the source. -/
def credentialNotFoundMsg : Str := "credential not found".toList

/-- `getCredFromCustomHeader`: look the lower-cased key name up in the
header map. -/
def getCredFromCustomHeader (headers : List (Str × Str)) (keyName : Str) : CredResult :=
  match goMapLookup headers (keyName.map Char.toLower) with
  | none => .err credentialNotFoundMsg
  | some cred => .ok cred

/-- Branch of `getCredFromAuthHeader` on the looked-up `authorization`
header: if the value carries the prefix `keyName ++ " "`, return the rest,
else fail. -/
def credFromAuthValue (keyName : Str) : Option Str → CredResult
  | none => .err credentialNotFoundMsg
  | some authHeader =>
    match dropPrefixGo (keyName ++ [' ']) authHeader with
    | some rest => .ok rest
    | none => .err credentialNotFoundMsg

/-- `getCredFromAuthHeader`: read the `authorization` header; if it carries
the prefix `keyName ++ " "`, return the rest, else fail. -/
def getCredFromAuthHeader (headers : List (Str × Str)) (keyName : Str) : CredResult :=
  credFromAuthValue keyName (goMapLookup headers "authorization".toList)

/-- The loop body of `getFromCookieHeader`: scan the `;`-separated parts in
order; for the first trimmed part whose text before the first `=` equals
`keyName`, return the component between the first and second `=`
(`keyAndValue[1]` in the source) — a Go runtime panic when that part
contains no `=` at all.  `splitChar` never returns `[]`, so the `[]` branch
is unreachable (see `splitChar_ne_nil`). -/
def cookieScan (keyName : Str) : List Str → CredResult
  | [] => .err credentialNotFoundMsg
  | part :: rest =>
    match splitChar '=' (trimSpaceGo part) with
    | [] => .panicked "unreachable: Split never returns an empty slice".toList
    | key :: values =>
      if key = keyName then
        match values with
        | value :: _ => .ok value
        | [] => .panicked "runtime error: index out of range".toList
      else cookieScan keyName rest

/-- Branch of `getFromCookieHeader` on the looked-up `cookie` header. -/
def credFromCookieValue (keyName : Str) : Option Str → CredResult
  | none => .err credentialNotFoundMsg
  | some header => cookieScan keyName (splitChar ';' header)

/-- `getFromCookieHeader`: read the `cookie` header, split it on `;` and scan
the parts. -/
def getFromCookieHeader (headers : List (Str × Str)) (keyName : Str) : CredResult :=
  credFromCookieValue keyName (goMapLookup headers "cookie".toList)

/-! ## Auth pipeline (src/pkg/service/auth_pipeline.go)

The Go pipeline runs one goroutine per evaluator and drains a buffered
response channel.  The embedding abstracts an evaluator's `Call` outcome
into an `EvaluationResponse` and models a pipeline execution by the three
lists of responses in the order the consumer loop receives them
(completion order; the environment chooses objects, errors and order).
Go maps keyed by config pointers become insertion-ordered association
lists (`goMapInsert`/`goMapLookup`); config identity is an abstract
`DecidableEq` type per phase. -/

/-- `EvaluationResponse` from the source: `{evaluator, object, error}`;
`Success()` is `error == nil`.  A Go `interface{}` that may be nil is an
`Option`. -/
structure EvaluationResponse (K V E : Type) where
  evaluator : K
  object : Option V
  error : Option E
deriving DecidableEq

/-- `EvaluationResponse.Success`. -/
def EvaluationResponse.success {K V E : Type} (r : EvaluationResponse K V E) : Bool :=
  r.error.isNone

/-- `AuthPipeline`'s mutable state: the request and the three result maps. -/
structure AuthPipeline (IC MC AC V RQ : Type) where
  Request : RQ
  Identity : List (IC × Option V)
  Metadata : List (MC × Option V)
  Authorization : List (AC × Option V)
deriving DecidableEq

/-- `NewAuthPipeline`: fresh pipeline with empty result maps. -/
def NewAuthPipeline {IC MC AC V RQ : Type} (req : RQ) : AuthPipeline IC MC AC V RQ :=
  ⟨req, [], [], []⟩

/-- `APIConfig`: the three ordered evaluator lists. -/
structure APIConfig (IC MC AC : Type) where
  IdentityConfigs : List IC
  MetadataConfigs : List MC
  AuthorizationConfigs : List AC
deriving DecidableEq

/-- One execution of the pipeline: the API configuration together with the
response sequence each phase's consumer loop drains from its channel. -/
structure PipelineRun (IC MC AC V E : Type) where
  API : APIConfig IC MC AC
  identityResps : List (EvaluationResponse IC V E)
  metadataResps : List (EvaluationResponse MC V E)
  authorizationResps : List (EvaluationResponse AC V E)
deriving DecidableEq

/-- Well-formedness of a run: every response on a phase's channel was
emitted by the goroutine of one of that phase's configured evaluators
(a cancelled goroutine may skip, so no lower bound is imposed). -/
def PipelineRun.wf {IC MC AC V E : Type} (run : PipelineRun IC MC AC V E) : Prop :=
  (∀ r ∈ run.identityResps, r.evaluator ∈ run.API.IdentityConfigs) ∧
  (∀ r ∈ run.metadataResps, r.evaluator ∈ run.API.MetadataConfigs) ∧
  (∀ r ∈ run.authorizationResps, r.evaluator ∈ run.API.AuthorizationConfigs)

section PipelineModel

variable {IC MC AC V E RQ : Type} [DecidableEq IC] [DecidableEq MC] [DecidableEq AC]

/-- Consumer loop of `evaluateIdentityConfigs`: on the first successful
response store `(config, object)` and return nil; otherwise remember the
error as `lastError` and continue; when the channel closes return
`lastError`. -/
def identityLoop (m : List (IC × Option V)) (lastError : Option E) :
    List (EvaluationResponse IC V E) → List (IC × Option V) × Option E
  | [] => (m, lastError)
  | r :: rest =>
    if r.success then (goMapInsert m r.evaluator r.object, none)
    else identityLoop m r.error rest

/-- `evaluateIdentityConfigs` acting on the pipeline state. -/
def evaluateIdentityConfigsP (resps : List (EvaluationResponse IC V E))
    (p : AuthPipeline IC MC AC V RQ) : AuthPipeline IC MC AC V RQ × Option E :=
  let step := identityLoop p.Identity none resps
  ({ p with Identity := step.1 }, step.2)

/-- Consumer loop of `evaluateMetadataConfigs`: store every success, ignore
every failure, return nothing. -/
def metadataLoop (m : List (MC × Option V)) :
    List (EvaluationResponse MC V E) → List (MC × Option V)
  | [] => m
  | r :: rest =>
    if r.success then metadataLoop (goMapInsert m r.evaluator r.object) rest
    else metadataLoop m rest

/-- `evaluateMetadataConfigs` acting on the pipeline state. -/
def evaluateMetadataConfigsP (resps : List (EvaluationResponse MC V E))
    (p : AuthPipeline IC MC AC V RQ) : AuthPipeline IC MC AC V RQ :=
  { p with Metadata := metadataLoop p.Metadata resps }

/-- Consumer loop of `evaluateAuthorizationConfigs`: store every success;
on the first failure return its error at once. -/
def authorizationLoop (m : List (AC × Option V)) :
    List (EvaluationResponse AC V E) → List (AC × Option V) × Option E
  | [] => (m, none)
  | r :: rest =>
    if r.success then authorizationLoop (goMapInsert m r.evaluator r.object) rest
    else (m, r.error)

/-- `evaluateAuthorizationConfigs` acting on the pipeline state. -/
def evaluateAuthorizationConfigsP (resps : List (EvaluationResponse AC V E))
    (p : AuthPipeline IC MC AC V RQ) : AuthPipeline IC MC AC V RQ × Option E :=
  let step := authorizationLoop p.Authorization resps
  ({ p with Authorization := step.1 }, step.2)

/-- The tail of `Evaluate` after the identity phase: if identity failed,
return its error; otherwise run metadata then authorization. -/
def evaluateRest (run : PipelineRun IC MC AC V E) :
    AuthPipeline IC MC AC V RQ × Option E → AuthPipeline IC MC AC V RQ × Option E
  | (p1, some e) => (p1, some e)
  | (p1, none) =>
    evaluateAuthorizationConfigsP run.authorizationResps
      (evaluateMetadataConfigsP run.metadataResps p1)

/-- `Evaluate`: identity → metadata → authorization, with the
short-circuiting of the source. -/
def Evaluate (p : AuthPipeline IC MC AC V RQ) (run : PipelineRun IC MC AC V E) :
    AuthPipeline IC MC AC V RQ × Option E :=
  evaluateRest run (evaluateIdentityConfigsP run.identityResps p)

/-- `GetResolvedIdentity`: the first non-null entry of the identity map,
`(nil, nil)` when there is none. -/
def GetResolvedIdentity : List (IC × Option V) → Option IC × Option V
  | [] => (none, none)
  | (c, some o) :: _ => (some c, some o)
  | (_, none) :: rest => GetResolvedIdentity rest

/-- `GetResolvedMetadata`: the non-null entries of the metadata map. -/
def GetResolvedMetadata : List (MC × Option V) → List (MC × V)
  | [] => []
  | (c, some o) :: rest => (c, o) :: GetResolvedMetadata rest
  | (_, none) :: rest => GetResolvedMetadata rest

/-- The `map[string]interface{}` of resolved metadata keyed by
`GetName()` built inside `GetDataForAuthorization`. -/
def buildNamedMetadata (getName : MC → Str) :
    List (MC × V) → List (Str × V) → List (Str × V)
  | [], acc => acc
  | (c, o) :: rest, acc => buildNamedMetadata getName rest (goMapInsert acc (getName c) o)

/-- The `authorizationData` value returned by `GetDataForAuthorization`:
`{"context": <request attributes>, "auth": {"identity": …, "metadata": …}}`
flattened into a record (the two fixed keys `identity` and `metadata` of
the inner Go map become fields). -/
structure AuthorizationData (RQ V : Type) where
  Context : RQ
  identity : Option V
  metadata : List (Str × V)
deriving DecidableEq

/-- `GetDataForAuthorization` from the source. -/
def GetDataForAuthorization (getName : MC → Str)
    (p : AuthPipeline IC MC AC V RQ) : AuthorizationData RQ V :=
  { Context := p.Request
  , identity := (GetResolvedIdentity p.Identity).2
  , metadata := buildNamedMetadata getName (GetResolvedMetadata p.Metadata) [] }

end PipelineModel

/-- `lastError` threading of the identity consumer loop, in isolation. -/
def lastErrorOf {K V E : Type} (le : Option E) : List (EvaluationResponse K V E) → Option E
  | [] => le
  | r :: rest => lastErrorOf r.error rest

/-- The object stored for key `c` by the last successful response for `c`
in a response list, if any. -/
def lastSuccessObjFor {K V E : Type} [DecidableEq K] (c : K) :
    List (EvaluationResponse K V E) → Option (Option V)
  | [] => none
  | r :: rest =>
    match lastSuccessObjFor c rest with
    | some o => some o
    | none => if r.success = true ∧ r.evaluator = c then some r.object else none

/-! ## JSON values, selector engine and JSON pattern matcher

The implementation of `JSONPatternMatching.Call` is not among the provided
source files — only its test (`src/unnamed/part_000`, `TestCall`) is — so
the evaluator is modelled from the spec (§3, §4.5, §4.6, §9) and checked
against the test's scenarios. -/

/-- Modelled from the spec: the dynamic authorization-context value
(§9: "a tagged variant (mapping | sequence | scalar-string |
scalar-number | scalar-bool | null)").  Numbers are restricted to
integers; none of the claims involves fractional values. -/
inductive JSON where
  | null
  | bool (b : Bool)
  | num (n : Int)
  | str (s : String)
  | arr (elems : List JSON)
  | obj (fields : List (String × JSON))

/-- JSON serialization of a value (string escaping is not modelled; no
claim exercises it). -/
def JSON.render : JSON → String
  | .null => "null"
  | .bool b => if b then "true" else "false"
  | .num n => toString n
  | .str s => "\"" ++ s ++ "\""
  | .arr elems =>
    "[" ++ String.intercalate "," (elems.attach.map fun e => e.1.render) ++ "]"
  | .obj fields =>
    "\x7b" ++ String.intercalate ","
      (fields.attach.map fun f => "\"" ++ f.1.1 ++ "\":" ++ f.1.2.render) ++ "\x7d"
decreasing_by
  · have := e.2
    simp only [JSON.arr.sizeOf_spec]
    calc sizeOf e.1 < sizeOf elems := List.sizeOf_lt_of_mem this
      _ < 1 + sizeOf elems := by omega
  · have hm := f.2
    have h1 : sizeOf f.1 ≤ sizeOf fields := Nat.le_of_lt (List.sizeOf_lt_of_mem hm)
    have h2 : sizeOf f.1.2 < sizeOf f.1 := by
      obtain ⟨a, b⟩ := f.1
      simp only [Prod.mk.sizeOf_spec]
      omega
    simp only [JSON.obj.sizeOf_spec]
    omega

/-- Modelled from the spec: one descent step of the selector engine
(§4.6): on a mapping the segment is the key; on a sequence a purely
numeric segment is the index; anything else is missing. -/
def selectSeg (j : JSON) (seg : String) : Option JSON :=
  match j with
  | .obj fields => goMapLookup fields seg
  | .arr elems =>
    match seg.toNat? with
    | some i => elems[i]?
    | none => none
  | _ => none

/-- Modelled from the spec: dot-path descent of the selector engine
(§4.6); an absent path is the missing sentinel `none`, never an error. -/
def selectPath : JSON → List String → Option JSON
  | j, [] => some j
  | j, seg :: rest =>
    match selectSeg j seg with
    | some x => selectPath x rest
    | none => none

/-- Modelled from the spec: `string(actual)` (§4.5): the natural
JSON-string representation of the resolved node; a missing selector
yields the empty string, which fails equality and membership checks
alike. -/
def stringOfSelected : Option JSON → String
  | none => ""
  | some (.str s) => s
  | some j => j.render

/-- Modelled from the spec: the rule operator, one of
`{eq, neq, incl, excl, matches}` (§3). -/
inductive PatternOperator where
  | eq
  | neq
  | incl
  | excl
  | matches
deriving DecidableEq

/-- `JSONPatternMatchingRule` from the spec's data model (§3):
`{selector, operator, value}`. -/
structure JSONPatternMatchingRule where
  Selector : String
  Operator : PatternOperator
  Value : String
deriving DecidableEq

/-- `JSONPatternMatching`: an authorization evaluator configured with a
list of rules. -/
structure JSONPatternMatching where
  Rules : List JSONPatternMatchingRule
deriving DecidableEq

/-- Outcome of one rule. -/
inductive RuleOutcome where
  | ok
  | unauthorized
  | compileErr (msg : String)
deriving DecidableEq

/-- The error component of `JSONPatternMatching.Call`: the semantic
`"Unauthorized"` denial or a regular-expression parse error surfaced
as-is. -/
inductive CallError where
  | unauthorized
  | regexParseErr (msg : String)
deriving DecidableEq

/-- Dot-splitting of a selector (Go `strings.Split(selector, ".")`),
via the structural `splitChar`. -/
def splitSelector (s : String) : List String :=
  (splitChar '.' s.toList).map String.mk

/-- Modelled from the spec: evaluation of one rule (§4.5 steps 2–3).
`rc` abstracts the regular-expression engine (Go `regexp.Compile` plus
`MatchString`), which is outside this repository: it maps a pattern to a
matcher or to a compile error. -/
def evalRule (rc : String → Except String (String → Bool))
    (authJSON : JSON) (rule : JSONPatternMatchingRule) : RuleOutcome :=
  let actual := selectPath authJSON (splitSelector rule.Selector)
  match rule.Operator with
  | .eq => if stringOfSelected actual = rule.Value then .ok else .unauthorized
  | .neq => if stringOfSelected actual ≠ rule.Value then .ok else .unauthorized
  | .incl =>
    match actual with
    | some (.arr elems) =>
      if elems.any fun e => stringOfSelected (some e) == rule.Value then .ok
      else .unauthorized
    | _ => .unauthorized
  | .excl =>
    match actual with
    | some (.arr elems) =>
      if elems.any fun e => stringOfSelected (some e) == rule.Value then .unauthorized
      else .ok
    | _ => .unauthorized
  | .matches =>
    match rc rule.Value with
    | .error msg => .compileErr msg
    | .ok matcher =>
      if matcher (stringOfSelected actual) then .ok else .unauthorized

/-- Modelled from the spec: the rule loop of `Call` (§4.5 step 4): rules
are checked in order and the first rule that does not hold decides the
result. -/
def callRules (rc : String → Except String (String → Bool)) (authJSON : JSON) :
    List JSONPatternMatchingRule → Bool × Option CallError
  | [] => (true, none)
  | rule :: rest =>
    match evalRule rc authJSON rule with
    | .ok => callRules rc authJSON rest
    | .unauthorized => (false, some .unauthorized)
    | .compileErr msg => (false, some (.regexParseErr msg))

/-- Modelled from the spec: `JSONPatternMatching.Call` (§4.5). -/
def JSONPatternMatching.Call (jm : JSONPatternMatching)
    (rc : String → Except String (String → Bool)) (authJSON : JSON) :
    Bool × Option CallError :=
  callRules rc authJSON jm.Rules

/-- The authorization JSON fixed by `TestCall` and §8 of the spec. -/
def testAuthJSON : JSON :=
  .obj [("context", .obj [("request", .obj [("http", .obj [("headers", .obj
      [("x-secret-header", .str "no-one-knows"),
       ("x-origin", .str "some-origin")])])])]),
    ("auth", .obj [("identity", .str "some-user-data"),
      ("metadata", .obj [("letters", .arr [.str "a", .str "b", .str "c"])])])]

/-! ## Regular-expression model

Go's `regexp` package is not part of this repository.  The fragment of
RE2 reachable from the source's patterns is modelled: literal characters,
`.`, character classes, `\d` and escaped punctuation, plain and
`(?P<name>…)` groups, the postfix `*` and `+`, and the `^`/`$` anchors.
Constructs outside the fragment are reported as parse errors by the
model.  Matching is leftmost, greedy with backtracking, as in Go's
`FindStringSubmatch`. -/

inductive RegexAST where
  | lit (c : Char)
  | dot
  | cls (neg : Bool) (cs : List Char)
  | star (r : RegexAST)
  | plus (r : RegexAST)
  | group (idx : Nat) (body : List RegexAST)
  | anchorBegin
  | anchorEnd

/-- Character-class body: characters up to the closing `]` (a leading `]`
is handled by the caller; escapes inside a class are outside the modelled
fragment). -/
def parseCls (acc : List Char) : List Char → Except Str (List Char × List Char)
  | [] => .error "missing closing ]".toList
  | c :: rest =>
    if c = ']' then .ok (acc.reverse, rest)
    else if c = '\\' then .error "escape in character class not modelled".toList
    else parseCls (c :: acc) rest

/-- Recursive-descent parser for a regex sequence.  `gidx` is the next
capture-group index (groups are numbered by opening parenthesis, from 1);
`inGroup` tells whether a closing `)` is expected.  Returns the parsed
sequence, the remaining input, the next group index and the named-group
assignment.  The fuel is bounded by the input length (each recursive call
consumes at least one character). -/
def parseSeq : Nat → List Char → Nat → Bool →
    Except Str (List RegexAST × List Char × Nat × List (Nat × Str))
  | 0, _, _, _ => .error "out of fuel".toList
  | _ + 1, [], gidx, inGroup =>
    if inGroup then .error "missing closing )".toList else .ok ([], [], gidx, [])
  | fuel + 1, c :: rest, gidx, inGroup =>
    if c = ')' then
      if inGroup then .ok ([], ')' :: rest, gidx, [])
      else .error "unexpected )".toList
    else
      let atomRes : Except Str (RegexAST × List Char × Nat × List (Nat × Str)) :=
        if c = '(' then
          match rest with
          | '?' :: 'P' :: '<' :: rest2 =>
            let nameChars := rest2.takeWhile fun x => x != '>'
            match rest2.dropWhile fun x => x != '>' with
            | '>' :: rest4 =>
              match parseSeq fuel rest4 (gidx + 1) true with
              | .error e => .error e
              | .ok (body, rest5, gidx2, names) =>
                match rest5 with
                | ')' :: rest6 =>
                  .ok (.group gidx body, rest6, gidx2, (gidx, nameChars) :: names)
                | _ => .error "missing closing )".toList
            | _ => .error "invalid named capture".toList
          | '?' :: _ => .error "group flag not modelled".toList
          | _ =>
            match parseSeq fuel rest (gidx + 1) true with
            | .error e => .error e
            | .ok (body, rest5, gidx2, names) =>
              match rest5 with
              | ')' :: rest6 => .ok (.group gidx body, rest6, gidx2, names)
              | _ => .error "missing closing )".toList
        else if c = '[' then
          match rest with
          | '^' :: ']' :: rest3 =>
            match parseCls [']'] rest3 with
            | .error e => .error e
            | .ok (cs, rest4) => .ok (.cls true cs, rest4, gidx, [])
          | '^' :: rest2 =>
            match parseCls [] rest2 with
            | .error e => .error e
            | .ok (cs, rest4) => .ok (.cls true cs, rest4, gidx, [])
          | ']' :: rest3 =>
            match parseCls [']'] rest3 with
            | .error e => .error e
            | .ok (cs, rest4) => .ok (.cls false cs, rest4, gidx, [])
          | _ =>
            match parseCls [] rest with
            | .error e => .error e
            | .ok (cs, rest4) => .ok (.cls false cs, rest4, gidx, [])
        else if c = '.' then .ok (.dot, rest, gidx, [])
        else if c = '\\' then
          match rest with
          | [] => .error "trailing backslash".toList
          | e :: rest2 =>
            if e = 'd' then .ok (.cls false "0123456789".toList, rest2, gidx, [])
            else if e.isAlpha then .error "escape not modelled".toList
            else .ok (.lit e, rest2, gidx, [])
        else if c = '^' then .ok (.anchorBegin, rest, gidx, [])
        else if c = '$' then .ok (.anchorEnd, rest, gidx, [])
        else if c = '*' || c = '+' || c = '?' then
          .error "missing argument to repetition operator".toList
        else if c = '|' then .error "alternation not modelled".toList
        else .ok (.lit c, rest, gidx, [])
      match atomRes with
      | .error e => .error e
      | .ok (atom, rest', gidx', names) =>
        let postfixed : RegexAST × List Char :=
          match rest' with
          | '*' :: r2 => (.star atom, r2)
          | '+' :: r2 => (.plus atom, r2)
          | _ => (atom, rest')
        match parseSeq fuel postfixed.2 gidx' inGroup with
        | .error e => .error e
        | .ok (seq, rest3, gidx3, names3) =>
          .ok (postfixed.1 :: seq, rest3, gidx3, names ++ names3)

/-- A compiled regex: the parsed sequence, the number of capture groups,
the named-group assignment and the pattern length (used to size the
matcher fuel). -/
structure CompiledRegex where
  seq : List RegexAST
  groupCount : Nat
  names : List (Nat × Str)
  patLen : Nat

/-- Model of `regexp.Compile`. -/
def regexCompile (pattern : Str) : Except Str CompiledRegex :=
  match parseSeq (pattern.length + 1) pattern 1 false with
  | .error e => .error e
  | .ok (seq, rest, gidx, names) =>
    match rest with
    | [] => .ok ⟨seq, gidx - 1, names, pattern.length⟩
    | _ => .error "unexpected )".toList

/-- The compile error of a pattern, if any (decidable view of
`regexCompile`'s error component). -/
def regexCompileErr (pattern : Str) : Option Str :=
  match regexCompile pattern with
  | .error e => some e
  | .ok _ => none

/-- Backtracking matcher in continuation-passing style.  `s` is the
remaining input, `pos` the absolute position (for anchors and captures),
`caps` the capture assignment so far.  `star` is greedy and each
iteration must consume at least one character (as iterations of the
source's `[^&]*` and `(.+)` do). -/
def matchSeq {α : Type} : Nat → List RegexAST → List Char → Nat → List (Nat × Str) →
    (List Char → Nat → List (Nat × Str) → Option α) → Option α
  | 0, _, _, _, _, _ => none
  | _ + 1, [], s, pos, caps, k => k s pos caps
  | fuel + 1, node :: ns, s, pos, caps, k =>
    match node with
    | .lit c =>
      match s with
      | x :: xs => if x = c then matchSeq fuel ns xs (pos + 1) caps k else none
      | [] => none
    | .dot =>
      match s with
      | x :: xs => if x = '\n' then none else matchSeq fuel ns xs (pos + 1) caps k
      | [] => none
    | .cls neg cs =>
      match s with
      | x :: xs =>
        if cs.contains x = !neg then matchSeq fuel ns xs (pos + 1) caps k else none
      | [] => none
    | .anchorBegin => if pos = 0 then matchSeq fuel ns s pos caps k else none
    | .anchorEnd =>
      match s with
      | [] => matchSeq fuel ns s pos caps k
      | _ :: _ => none
    | .star r =>
      match matchSeq fuel [r] s pos caps fun s2 pos2 caps2 =>
          if pos < pos2 then matchSeq fuel (.star r :: ns) s2 pos2 caps2 k else none with
      | some res => some res
      | none => matchSeq fuel ns s pos caps k
    | .plus r => matchSeq fuel (r :: .star r :: ns) s pos caps k
    | .group i body =>
      matchSeq fuel body s pos caps fun s2 pos2 caps2 =>
        matchSeq fuel ns s2 pos2 (goMapInsert caps2 i (s.take (pos2 - pos))) k

/-- Leftmost search: try each start position from left to right. -/
def findAux (re : CompiledRegex) (fuel : Nat) : Nat → List Char →
    Option (Nat × Nat × List (Nat × Str))
  | pos, [] =>
    match matchSeq fuel re.seq [] pos [] fun _ pos2 caps2 => some (pos2, caps2) with
    | some (endPos, caps) => some (pos, endPos, caps)
    | none => none
  | pos, c :: rest =>
    match matchSeq fuel re.seq (c :: rest) pos [] fun _ pos2 caps2 => some (pos2, caps2) with
    | some (endPos, caps) => some (pos, endPos, caps)
    | none => findAux re fuel (pos + 1) rest

/-- Model of `Regexp.FindStringSubmatch`: `none` when there is no match
(Go returns nil), otherwise the slice `[full, group1, …, groupN]` with
the empty string for a non-participating group. -/
def FindStringSubmatch (re : CompiledRegex) (s : List Char) : Option (List Str) :=
  match findAux re ((s.length + 2) * (re.patLen + 2)) 0 s with
  | none => none
  | some (startPos, endPos, caps) =>
    some (((s.drop startPos).take (endPos - startPos)) ::
      ((List.range re.groupCount).map fun i => (goMapLookup caps (i + 1)).getD []))

/-- Model of `Regexp.SubexpIndex`: the index of the first group with the
given name; Go returns −1 (modelled as `none`) when there is none. -/
def SubexpIndex (re : CompiledRegex) (name : Str) : Option Nat :=
  (re.names.find? fun e => e.2 == name).map fun e => e.1

/-- The pattern `([?&]<keyName>=)(?P<credValue>[^&]*)` constructed by
`getCredFromQuery` — note the key selector is spliced in as regex text. -/
def queryPattern (keyName : Str) : Str :=
  "([?&]".toList ++ keyName ++ "=)(?P<credValue>[^&]*)".toList

/-- `getCredFromQuery` from the source.  `regexp.MustCompile` panics on a
compile error; `matches[regex.SubexpIndex(credValue)]` panics when the
named group does not exist (index −1). -/
def getCredFromQuery (path : Str) (keyName : Str) : CredResult :=
  match regexCompile (queryPattern keyName) with
  | .error msg => .panicked msg
  | .ok re =>
    match FindStringSubmatch re path with
    | none => .err credentialNotFoundMsg
    | some ms =>
      match SubexpIndex re "credValue".toList with
      | none => .panicked "runtime error: index out of range".toList
      | some i =>
        match ms[i]? with
        | some v => .ok v
        | none => .panicked "runtime error: index out of range".toList

/-- Literal-occurrence query search, the comparison point named by claim
C10: find the first occurrence of `?<keySelector>=` or `&<keySelector>=`
taking the key selector as literal text, and return the following run of
non-`&` characters. -/
def literalScan (keyName : Str) : List Char → CredResult
  | [] => .err credentialNotFoundMsg
  | c :: rest =>
    if c = '?' || c = '&' then
      match dropPrefixGo (keyName ++ ['=']) rest with
      | some after => .ok (after.takeWhile fun x => x != '&')
      | none => literalScan keyName rest
    else literalScan keyName rest

/-- Entry point of the literal query search of claim C10. -/
def literalQuerySearch (path : Str) (keyName : Str) : CredResult :=
  literalScan keyName path

/-- The regex oracle backed by this model, used to run the `TestCall`
scenarios of the pattern matcher. -/
def goRegexOracle : String → Except String (String → Bool) :=
  fun pattern =>
    match regexCompile pattern.toList with
    | .error msg => .error (String.mk msg)
    | .ok re => .ok fun s => (FindStringSubmatch re s.toList).isSome

/-! ## Theorems -/

theorem splitChar_ne_nil (sep : Char) (s : Str) : splitChar sep s ≠ [] := by
  cases s with
  | nil => simp [splitChar]
  | cons c rest =>
    simp only [splitChar]
    cases h : splitChar sep rest with
    | nil => simp
    | cons piece pieces =>
      by_cases hc : c = sep <;> simp [hc]

theorem dropPrefixGo_eq_some (pre s w : Str) :
    dropPrefixGo pre s = some w ↔ s = pre ++ w := by
  induction pre generalizing s with
  | nil => simp [dropPrefixGo]
  | cons p ps ih =>
    cases s with
    | nil => simp [dropPrefixGo]
    | cons c cs =>
      by_cases h : p = c
      · subst h
        simp [dropPrefixGo, ih]
      · simp [dropPrefixGo, h]
        intro hc
        exact absurd hc.symm h

theorem goMapLookup_goMapInsert {K A : Type} [DecidableEq K]
    (m : List (K × A)) (k c : K) (v : A) :
    goMapLookup (goMapInsert m k v) c = if c = k then some v else goMapLookup m c := by
  induction m with
  | nil =>
    by_cases hc : c = k
    · subst hc; simp [goMapInsert, goMapLookup]
    · have hkc : ¬ k = c := fun h => hc h.symm
      simp [goMapInsert, goMapLookup, hc, hkc]
  | cons e rest ih =>
    obtain ⟨k', v'⟩ := e
    by_cases h : k' = k
    · subst h
      by_cases hc : c = k'
      · subst hc; simp [goMapInsert, goMapLookup]
      · have hkc : ¬ k' = c := fun h2 => hc h2.symm
        simp [goMapInsert, goMapLookup, hc, hkc]
    · by_cases hc : k' = c
      · subst hc
        simp [goMapInsert, goMapLookup, h]
      · simp [goMapInsert, goMapLookup, h, hc, ih]

theorem mem_goMapInsert {K A : Type} [DecidableEq K]
    (m : List (K × A)) (k : K) (v : A) (e : K × A)
    (he : e ∈ goMapInsert m k v) : e = (k, v) ∨ e ∈ m := by
  induction m with
  | nil => simpa [goMapInsert] using he
  | cons e' rest ih =>
    obtain ⟨k', v'⟩ := e'
    by_cases h : k' = k
    · simp [goMapInsert, h] at he
      rcases he with he | he
      · exact Or.inl he
      · exact Or.inr (List.mem_cons_of_mem _ he)
    · simp [goMapInsert, h] at he
      rcases he with he | he
      · exact Or.inr (by simp [he])
      · rcases ih he with h1 | h1
        · exact Or.inl h1
        · exact Or.inr (List.mem_cons_of_mem _ h1)

theorem append_singleton_append (xs : Str) (c : Char) (w : Str) :
    (xs ++ [c]) ++ w = xs ++ c :: w := by
  simp

theorem cookieScan_not_found (keyName : Str) (parts : List Str)
    (h : ∀ p ∈ parts, (splitChar '=' (trimSpaceGo p))[0]? ≠ some keyName) :
    cookieScan keyName parts = .err credentialNotFoundMsg := by
  induction parts with
  | nil => rfl
  | cons part rest ih =>
    cases hs : splitChar '=' (trimSpaceGo part) with
    | nil => exact absurd hs (splitChar_ne_nil _ _)
    | cons key values =>
      have hk : key ≠ keyName := by
        have := h part (List.mem_cons_self _ _)
        simpa [hs] using this
      simp only [cookieScan, hs, if_neg hk]
      exact ih fun p hp => h p (List.mem_cons_of_mem _ hp)

theorem cookieScan_found (keyName : Str) (pre : List Str) (part : Str)
    (post : List Str) (v : Str)
    (hpre : ∀ q ∈ pre, (splitChar '=' (trimSpaceGo q))[0]? ≠ some keyName)
    (hkey : (splitChar '=' (trimSpaceGo part))[0]? = some keyName)
    (hval : (splitChar '=' (trimSpaceGo part))[1]? = some v) :
    cookieScan keyName (pre ++ part :: post) = .ok v := by
  induction pre with
  | nil =>
    cases hs : splitChar '=' (trimSpaceGo part) with
    | nil => exact absurd hs (splitChar_ne_nil _ _)
    | cons key values =>
      have hk : key = keyName := by simpa [hs] using hkey
      cases values with
      | nil => simp [hs] at hval
      | cons v' vs =>
        have hv : v' = v := by simpa [hs] using hval
        simp [cookieScan, hs, hk, hv]
  | cons q qs ih =>
    cases hs : splitChar '=' (trimSpaceGo q) with
    | nil => exact absurd hs (splitChar_ne_nil _ _)
    | cons key values =>
      have hk : key ≠ keyName := by
        have := hpre q (List.mem_cons_self _ _)
        simpa [hs] using this
      simp only [List.cons_append, cookieScan, hs, if_neg hk]
      exact ih fun p hp => hpre p (List.mem_cons_of_mem _ hp)

/-- Claim C6 (confirmed): extraction from the `authorization` header returns
the header value with the prefix `keySelector ++ " "` stripped when that
prefix is present, and fails with the credential-not-found error when the
header is absent or the prefix is absent. -/
theorem claim_C6 (headers : List (Str × Str)) (keyName : Str) :
    (goMapLookup headers "authorization".toList = none →
      getCredFromAuthHeader headers keyName = .err credentialNotFoundMsg) ∧
    (∀ v, goMapLookup headers "authorization".toList = some v →
      (∀ w, getCredFromAuthHeader headers keyName = .ok w ↔ v = keyName ++ ' ' :: w) ∧
      ((¬ ∃ w, v = keyName ++ ' ' :: w) →
        getCredFromAuthHeader headers keyName = .err credentialNotFoundMsg)) := by
  constructor
  · intro h
    unfold getCredFromAuthHeader
    rw [h]
    rfl
  · intro v hv
    constructor
    · intro w
      unfold getCredFromAuthHeader
      rw [hv]
      simp only [credFromAuthValue]
      cases hd : dropPrefixGo (keyName ++ [' ']) v with
      | none =>
        simp only []
        constructor
        · intro h; cases h
        · intro hw
          rw [← append_singleton_append] at hw
          rw [(dropPrefixGo_eq_some (keyName ++ [' ']) v w).mpr hw] at hd
          cases hd
      | some rest =>
        have hrest := (dropPrefixGo_eq_some (keyName ++ [' ']) v rest).mp hd
        rw [append_singleton_append] at hrest
        simp only []
        constructor
        · intro h
          injection h with h2
          subst h2
          exact hrest
        · intro hw
          have : rest = w := by
            rw [hrest] at hw
            simpa using hw
          rw [this]
    · intro hnw
      unfold getCredFromAuthHeader
      rw [hv]
      simp only [credFromAuthValue]
      cases hd : dropPrefixGo (keyName ++ [' ']) v with
      | none => rfl
      | some rest =>
        exfalso
        apply hnw
        refine ⟨rest, ?_⟩
        have := (dropPrefixGo_eq_some (keyName ++ [' ']) v rest).mp hd
        rwa [append_singleton_append] at this

/-- Witness for claim C6 at the spec's own example:
`Authorization: Bearer abc`, key `Bearer` yields `abc`. -/
theorem claim_C6_witness :
    getCredFromAuthHeader [("authorization".toList, "Bearer abc".toList)]
      "Bearer".toList = .ok "abc".toList := by
  have h := (claim_C6 [("authorization".toList, "Bearer abc".toList)]
    "Bearer".toList).2 "Bearer abc".toList (by decide)
  exact (h.1 "abc".toList).mpr (by decide)

/-- Counterexample to claim C5 as stated: for the cookie header
`token=a=b` and key `token`, the code returns the text between the first and
second `=` (`"a"`), not everything after the first `=` (`"a=b"`), because Go
`strings.Split` splits on every `=` and the code reads index 1. -/
theorem claim_C5_counterexample :
    getFromCookieHeader [("cookie".toList, "token=a=b".toList)] "token".toList
        = .ok "a".toList ∧
    getFromCookieHeader [("cookie".toList, "token=a=b".toList)] "token".toList
        ≠ .ok "a=b".toList := by
  constructor
  · decide
  · decide

/-- Claim C5 as amended: extraction with `in="cookie"` splits the cookie
header on `;`, trims each part, splits each part on every `=`, and for the
first part whose component before the first `=` equals `keySelector` returns
the component between the first and second `=` (provided that part contains
an `=`); it fails with credential-not-found when the cookie header is absent
or no part has that key. -/
theorem claim_C5_amended_cookie (headers : List (Str × Str)) (keyName : Str) :
    (goMapLookup headers "cookie".toList = none →
      getFromCookieHeader headers keyName = .err credentialNotFoundMsg) ∧
    (∀ header, goMapLookup headers "cookie".toList = some header →
      ((∀ p ∈ splitChar ';' header,
          (splitChar '=' (trimSpaceGo p))[0]? ≠ some keyName) →
        getFromCookieHeader headers keyName = .err credentialNotFoundMsg) ∧
      (∀ pre part post v,
        splitChar ';' header = pre ++ part :: post →
        (∀ q ∈ pre, (splitChar '=' (trimSpaceGo q))[0]? ≠ some keyName) →
        (splitChar '=' (trimSpaceGo part))[0]? = some keyName →
        (splitChar '=' (trimSpaceGo part))[1]? = some v →
        getFromCookieHeader headers keyName = .ok v)) := by
  constructor
  · intro h
    unfold getFromCookieHeader
    rw [h]
    rfl
  · intro header hh
    constructor
    · intro hnone
      unfold getFromCookieHeader
      rw [hh]
      simp only [credFromCookieValue]
      exact cookieScan_not_found keyName _ hnone
    · intro pre part post v hsplit hpre hkey hval
      unfold getFromCookieHeader
      rw [hh]
      simp only [credFromCookieValue]
      rw [hsplit]
      exact cookieScan_found keyName pre part post v hpre hkey hval

/-- Witness for the amended claim C5 at the spec's example:
`Cookie: a=1; token=xyz; b=2`, key `token` yields `xyz`. -/
theorem claim_C5_amended_cookie_witness :
    getFromCookieHeader [("cookie".toList, "a=1; token=xyz; b=2".toList)]
      "token".toList = .ok "xyz".toList := by
  have h := (claim_C5_amended_cookie
    [("cookie".toList, "a=1; token=xyz; b=2".toList)] "token".toList).2
    "a=1; token=xyz; b=2".toList (by decide)
  exact h.2 ["a=1".toList] " token=xyz".toList [" b=2".toList] "xyz".toList
    (by decide) (by decide) (by decide) (by decide)

/-- Claim C9 (confirmed): `getFromCookieHeader` is not total — a cookie
header consisting of a single part with no `=` whose text equals the key
selector reaches the out-of-bounds read of index 1, a Go runtime panic. -/
theorem claim_C9 :
    getFromCookieHeader [("cookie".toList, "token".toList)] "token".toList =
      .panicked "runtime error: index out of range".toList := by
  decide

section PipelineTheorems

variable {IC MC AC V E RQ : Type} [DecidableEq IC] [DecidableEq MC] [DecidableEq AC]

theorem success_iff {K V' E' : Type} (r : EvaluationResponse K V' E') :
    r.success = true ↔ r.error = none := by
  cases h : r.error <;> simp [EvaluationResponse.success, h]

theorem lastErrorOf_append_single {K V' E' : Type} (le : Option E')
    (init : List (EvaluationResponse K V' E')) (rlast : EvaluationResponse K V' E') :
    lastErrorOf le (init ++ [rlast]) = rlast.error := by
  induction init generalizing le with
  | nil => rfl
  | cons q qs ih => simpa [lastErrorOf] using ih q.error

theorem identityLoop_first_success (m : List (IC × Option V)) (le : Option E)
    (pre : List (EvaluationResponse IC V E)) (r : EvaluationResponse IC V E)
    (post : List (EvaluationResponse IC V E))
    (hpre : ∀ q ∈ pre, q.error ≠ none) (hr : r.error = none) :
    identityLoop m le (pre ++ r :: post) = (goMapInsert m r.evaluator r.object, none) := by
  induction pre generalizing le with
  | nil =>
    have hs : r.success = true := (success_iff r).mpr hr
    simp [identityLoop, hs]
  | cons q qs ih =>
    have hq : q.success = false := by
      have hqe := hpre q (List.mem_cons_self _ _)
      cases hq2 : q.error with
      | none => exact absurd hq2 hqe
      | some e => simp [EvaluationResponse.success, hq2]
    simp only [List.cons_append, identityLoop, hq, Bool.false_eq_true, if_false]
    exact ih q.error fun x hx => hpre x (List.mem_cons_of_mem _ hx)

theorem identityLoop_all_fail (m : List (IC × Option V)) (le : Option E)
    (resps : List (EvaluationResponse IC V E)) (h : ∀ r ∈ resps, r.error ≠ none) :
    identityLoop m le resps = (m, lastErrorOf le resps) := by
  induction resps generalizing le with
  | nil => rfl
  | cons r rest ih =>
    have hr : r.success = false := by
      have hre := h r (List.mem_cons_self _ _)
      cases hr2 : r.error with
      | none => exact absurd hr2 hre
      | some e => simp [EvaluationResponse.success, hr2]
    simp only [identityLoop, hr, Bool.false_eq_true, if_false, lastErrorOf]
    exact ih r.error fun x hx => h x (List.mem_cons_of_mem _ hx)

theorem identityLoop_eq_none (m : List (IC × Option V)) (le : Option E)
    (resps : List (EvaluationResponse IC V E))
    (h : (identityLoop m le resps).2 = none) :
    (resps = [] ∧ (identityLoop m le resps).1 = m) ∨
    (∃ r ∈ resps, r.error = none ∧
      (identityLoop m le resps).1 = goMapInsert m r.evaluator r.object) := by
  induction resps generalizing le with
  | nil => exact Or.inl ⟨rfl, rfl⟩
  | cons r rest ih =>
    by_cases hs : r.success = true
    · right
      exact ⟨r, List.mem_cons_self _ _, (success_iff r).mp hs, by simp [identityLoop, hs]⟩
    · have hs' : r.success = false := by simpa using hs
      have h' : (identityLoop m r.error rest).2 = none := by
        simpa [identityLoop, hs'] using h
      rcases ih r.error h' with ⟨hnil, _⟩ | ⟨r', hr', he, h1⟩
      · subst hnil
        have : r.error = none := by simpa [identityLoop] using h'
        exact absurd ((success_iff r).mpr this) hs
      · right
        refine ⟨r', List.mem_cons_of_mem _ hr', he, ?_⟩
        simpa [identityLoop, hs'] using h1

theorem metadataLoop_no_success (m : List (MC × Option V))
    (resps : List (EvaluationResponse MC V E)) (h : ∀ r ∈ resps, r.error ≠ none) :
    metadataLoop m resps = m := by
  induction resps with
  | nil => rfl
  | cons r rest ih =>
    have hr : r.success = false := by
      have hre := h r (List.mem_cons_self _ _)
      cases hr2 : r.error with
      | none => exact absurd hr2 hre
      | some e => simp [EvaluationResponse.success, hr2]
    simp only [metadataLoop, hr, Bool.false_eq_true, if_false]
    exact ih fun x hx => h x (List.mem_cons_of_mem _ hx)

theorem metadataLoop_lookup (m : List (MC × Option V))
    (resps : List (EvaluationResponse MC V E)) (c : MC) :
    goMapLookup (metadataLoop m resps) c =
      (lastSuccessObjFor c resps <|> goMapLookup m c) := by
  induction resps generalizing m with
  | nil => simp [metadataLoop, lastSuccessObjFor]
  | cons r rest ih =>
    by_cases hs : r.success = true
    · by_cases hc : r.evaluator = c
      · have hlook : goMapLookup (goMapInsert m r.evaluator r.object) c = some r.object := by
          rw [goMapLookup_goMapInsert]
          simp [hc]
        simp only [metadataLoop, hs, if_true, lastSuccessObjFor]
        rw [ih, hlook]
        cases hlast : lastSuccessObjFor c rest with
        | some o => simp
        | none => simp [hs, hc]
      · have hc' : ¬ c = r.evaluator := fun h => hc h.symm
        have hlook : goMapLookup (goMapInsert m r.evaluator r.object) c = goMapLookup m c := by
          rw [goMapLookup_goMapInsert, if_neg hc']
        simp only [metadataLoop, hs, if_true, lastSuccessObjFor]
        rw [ih, hlook]
        cases hlast : lastSuccessObjFor c rest with
        | some o => simp
        | none => simp [hc]
    · have hs' : r.success = false := by simpa using hs
      simp only [metadataLoop, hs', Bool.false_eq_true, if_false, lastSuccessObjFor]
      rw [ih]
      cases hlast : lastSuccessObjFor c rest with
      | some o => simp
      | none => simp [hs']

theorem authorizationLoop_mem (m : List (AC × Option V))
    (resps : List (EvaluationResponse AC V E)) (x : AC × Option V)
    (hx : x ∈ (authorizationLoop m resps).1) :
    x ∈ m ∨ ∃ r ∈ resps, r.error = none ∧ x = (r.evaluator, r.object) := by
  induction resps generalizing m with
  | nil => exact Or.inl (by simpa [authorizationLoop] using hx)
  | cons r rest ih =>
    by_cases hs : r.success = true
    · have hx' : x ∈ (authorizationLoop (goMapInsert m r.evaluator r.object) rest).1 := by
        simpa [authorizationLoop, hs] using hx
      rcases ih _ hx' with h1 | ⟨r', hr', he, hx2⟩
      · rcases mem_goMapInsert _ _ _ _ h1 with h2 | h2
        · exact Or.inr ⟨r, List.mem_cons_self _ _, (success_iff r).mp hs, h2⟩
        · exact Or.inl h2
      · exact Or.inr ⟨r', List.mem_cons_of_mem _ hr', he, hx2⟩
    · have hs' : r.success = false := by simpa using hs
      exact Or.inl (by simpa [authorizationLoop, hs'] using hx)

theorem evaluateRest_identity_field (run : PipelineRun IC MC AC V E)
    (p1 : AuthPipeline IC MC AC V RQ) :
    (evaluateRest run (p1, (none : Option E))).1.Identity = p1.Identity := by
  simp [evaluateRest, evaluateAuthorizationConfigsP, evaluateMetadataConfigsP]

/-- Counterexample to claim C1 as stated: with an empty `IdentityConfigs`
list (hence an empty identity response channel) the identity phase — and
`Evaluate` on an API whose three lists are all empty — returns no error,
rather than failing with a "no identity" error. -/
theorem claim_C1_counterexample :
    ((evaluateIdentityConfigsP ([] : List (EvaluationResponse Nat Bool (List Char)))
        (NewAuthPipeline 0 : AuthPipeline Nat Nat Nat Bool Nat)).2 = none) ∧
    ((Evaluate (NewAuthPipeline 0 : AuthPipeline Nat Nat Nat Bool Nat)
        (⟨⟨[], [], []⟩, [], [], []⟩ : PipelineRun Nat Nat Nat Bool (List Char))).2 = none) := by
  exact ⟨rfl, rfl⟩

/-- Claim C1 as amended: if `IdentityConfigs` is empty the identity phase
returns no error and leaves the pipeline unchanged (it does not fail); if
`MetadataConfigs` is empty the metadata phase is a no-op; if
`AuthorizationConfigs` is empty the authorization phase succeeds; hence
`Evaluate` with empty identity and authorization config lists returns no
error. -/
theorem claim_C1_amended (p : AuthPipeline IC MC AC V RQ)
    (run : PipelineRun IC MC AC V E) (hwf : run.wf) :
    (run.API.IdentityConfigs = [] →
      evaluateIdentityConfigsP run.identityResps p = (p, none)) ∧
    (run.API.MetadataConfigs = [] →
      evaluateMetadataConfigsP run.metadataResps p = p) ∧
    (run.API.AuthorizationConfigs = [] →
      evaluateAuthorizationConfigsP run.authorizationResps p = (p, none)) ∧
    (run.API.IdentityConfigs = [] → run.API.AuthorizationConfigs = [] →
      (Evaluate p run).2 = none) := by
  have hid : run.API.IdentityConfigs = [] → run.identityResps = [] := by
    intro h
    rcases hr : run.identityResps with _ | ⟨r, rest⟩
    · rfl
    · have := hwf.1 r (by rw [hr]; exact List.mem_cons_self _ _)
      rw [h] at this
      cases this
  have hmd : run.API.MetadataConfigs = [] → run.metadataResps = [] := by
    intro h
    rcases hr : run.metadataResps with _ | ⟨r, rest⟩
    · rfl
    · have := hwf.2.1 r (by rw [hr]; exact List.mem_cons_self _ _)
      rw [h] at this
      cases this
  have hau : run.API.AuthorizationConfigs = [] → run.authorizationResps = [] := by
    intro h
    rcases hr : run.authorizationResps with _ | ⟨r, rest⟩
    · rfl
    · have := hwf.2.2 r (by rw [hr]; exact List.mem_cons_self _ _)
      rw [h] at this
      cases this
  refine ⟨?_, ?_, ?_, ?_⟩
  · intro h
    rw [hid h]
    rfl
  · intro h
    rw [hmd h]
    rfl
  · intro h
    rw [hau h]
    rfl
  · intro h1 h2
    unfold Evaluate
    rw [hid h1]
    show (evaluateRest run (p, (none : Option E))).2 = none
    simp only [evaluateRest]
    rw [hau h2]
    rfl

/-- Witness for the amended claim C1: a concrete all-empty run. -/
theorem claim_C1_amended_witness :
    (Evaluate (NewAuthPipeline 0 : AuthPipeline Nat Nat Nat Bool Nat)
      (⟨⟨[], [], []⟩, [], [], []⟩ : PipelineRun Nat Nat Nat Bool (List Char))).2 = none := by
  exact (claim_C1_amended _ _ (by exact ⟨by simp, by simp, by simp⟩)).2.2.2 rfl rfl

/-- Counterexample to claim C2 as stated: a well-formed run with no
identity configs and a single authorization evaluator whose `Call`
returned a nil object and nil error.  `Evaluate` succeeds, the identity
map has zero (not exactly one) non-null entries, and the single
authorization entry is null (hence not truthy, with `V := Bool` and
truthiness being `= true`). -/
theorem claim_C2_counterexample :
    (⟨⟨[], [], [7]⟩, [], [], [⟨7, none, none⟩]⟩ :
        PipelineRun Nat Nat Nat Bool (List Char)).wf ∧
    ((Evaluate (NewAuthPipeline 0 : AuthPipeline Nat Nat Nat Bool Nat)
        (⟨⟨[], [], [7]⟩, [], [], [⟨7, none, none⟩]⟩ :
          PipelineRun Nat Nat Nat Bool (List Char))).2 = none) ∧
    ¬ (((Evaluate (NewAuthPipeline 0 : AuthPipeline Nat Nat Nat Bool Nat)
        (⟨⟨[], [], [7]⟩, [], [], [⟨7, none, none⟩]⟩ :
          PipelineRun Nat Nat Nat Bool (List Char))).1.Identity.filter
            fun e => e.2.isSome).length = 1) ∧
    ¬ (∀ x ∈ (Evaluate (NewAuthPipeline 0 : AuthPipeline Nat Nat Nat Bool Nat)
        (⟨⟨[], [], [7]⟩, [], [], [⟨7, none, none⟩]⟩ :
          PipelineRun Nat Nat Nat Bool (List Char))).1.Authorization,
        ∃ v, x.2 = some v ∧ v = true) := by
  refine ⟨⟨by simp, by simp, by simp⟩, rfl, by decide, ?_⟩
  intro hall
  have := hall (7, none) (by decide)
  rcases this with ⟨v, hv, _⟩
  cases hv

/-- Claim C2 as amended: after a successful `Evaluate` from a fresh
pipeline, the identity map is empty when the identity channel carried no
responses and otherwise holds exactly the `(config, object)` pair of one
successful identity response; every authorization map entry is the
`(config, object)` pair of some successful authorization response (the
pipeline itself checks neither non-nullness nor truthiness of the stored
objects; the metadata map may be empty or partial). -/
theorem claim_C2_amended (req : RQ) (run : PipelineRun IC MC AC V E)
    (h : (Evaluate (NewAuthPipeline req) run).2 = none) :
    (run.identityResps = [] →
      (Evaluate (NewAuthPipeline req) run).1.Identity = []) ∧
    (run.identityResps ≠ [] → ∃ r ∈ run.identityResps, r.error = none ∧
      (Evaluate (NewAuthPipeline req) run).1.Identity = [(r.evaluator, r.object)]) ∧
    (∀ x ∈ (Evaluate (NewAuthPipeline req) run).1.Authorization,
      ∃ r ∈ run.authorizationResps, r.error = none ∧ x = (r.evaluator, r.object)) := by
  rcases hid : evaluateIdentityConfigsP run.identityResps
      (NewAuthPipeline req : AuthPipeline IC MC AC V RQ) with ⟨p1, oe⟩
  have hoe : oe = none := by
    cases oe with
    | none => rfl
    | some e =>
      exfalso
      have : (Evaluate (NewAuthPipeline req) run).2 = some e := by
        unfold Evaluate
        rw [hid]
        rfl
      rw [this] at h
      cases h
  subst hoe
  have hEv : Evaluate (NewAuthPipeline req) run = evaluateRest run (p1, none) := by
    unfold Evaluate
    rw [hid]
  have hIdfield : (Evaluate (NewAuthPipeline req) run).1.Identity = p1.Identity := by
    rw [hEv]
    exact evaluateRest_identity_field run p1
  have hloop : (identityLoop ([] : List (IC × Option V)) (none : Option E)
      run.identityResps).2 = none := by
    have : p1.Identity = (identityLoop [] none run.identityResps).1 ∧
        (none : Option E) = (identityLoop [] none run.identityResps).2 := by
      have h2 := congrArg Prod.snd hid
      have h1 := congrArg (fun z => (Prod.fst z).Identity) hid
      simp only [evaluateIdentityConfigsP, NewAuthPipeline] at h1 h2
      exact ⟨h1.symm, h2.symm⟩
    exact this.2.symm
  have hId1 : p1.Identity = (identityLoop ([] : List (IC × Option V))
      (none : Option E) run.identityResps).1 := by
    have h1 := congrArg (fun z => (Prod.fst z).Identity) hid
    simp only [evaluateIdentityConfigsP, NewAuthPipeline] at h1
    exact h1.symm
  refine ⟨?_, ?_, ?_⟩
  · intro hnil
    rw [hIdfield, hId1, hnil]
    rfl
  · intro hne
    rcases identityLoop_eq_none [] none run.identityResps hloop with ⟨hnil, _⟩ | ⟨r, hr, he, h1⟩
    · exact absurd hnil hne
    · exact ⟨r, hr, he, by rw [hIdfield, hId1, h1]; rfl⟩
  · intro x hx
    have hAufield : (Evaluate (NewAuthPipeline req) run).1.Authorization =
        (authorizationLoop (p1.Authorization) run.authorizationResps).1 := by
      rw [hEv]
      simp [evaluateRest, evaluateAuthorizationConfigsP, evaluateMetadataConfigsP]
    rw [hAufield] at hx
    rcases authorizationLoop_mem _ _ _ hx with h1 | h1
    · exfalso
      have hAu1 : p1.Authorization = [] := by
        have h1' := congrArg (fun z => (Prod.fst z).Authorization) hid
        simp only [evaluateIdentityConfigsP, NewAuthPipeline] at h1'
        exact h1'.symm
      rw [hAu1] at h1
      cases h1
    · exact h1

/-- Witness for the amended claim C2: one successful identity response and
one successful authorization response. -/
theorem claim_C2_amended_witness :
    ∃ r ∈ [(⟨4, some true, none⟩ : EvaluationResponse Nat Bool (List Char))],
      r.error = none ∧
      (Evaluate (NewAuthPipeline 0 : AuthPipeline Nat Nat Nat Bool Nat)
        (⟨⟨[4], [], [7]⟩, [⟨4, some true, none⟩], [], [⟨7, some true, none⟩]⟩ :
          PipelineRun Nat Nat Nat Bool (List Char))).1.Identity =
        [(r.evaluator, r.object)] := by
  exact (claim_C2_amended 0
    (⟨⟨[4], [], [7]⟩, [⟨4, some true, none⟩], [], [⟨7, some true, none⟩]⟩ :
      PipelineRun Nat Nat Nat Bool (List Char)) (by decide)).2.1 (by decide)

/-- Claim C3 (confirmed): the identity phase stores the `(config, object)`
pair of the first successful response and returns no error, independently
of any later responses; if every response fails, it returns the error of
the last response on the channel and stores nothing. -/
theorem claim_C3 (p : AuthPipeline IC MC AC V RQ)
    (resps : List (EvaluationResponse IC V E)) :
    (∀ pre r post, resps = pre ++ r :: post → (∀ q ∈ pre, q.error ≠ none) →
      r.error = none →
      evaluateIdentityConfigsP resps p =
        ({ p with Identity := goMapInsert p.Identity r.evaluator r.object },
          (none : Option E))) ∧
    (∀ init rlast, resps = init ++ [rlast] → (∀ q ∈ resps, q.error ≠ none) →
      evaluateIdentityConfigsP resps p = (p, rlast.error)) := by
  constructor
  · intro pre r post hsplit hpre hr
    unfold evaluateIdentityConfigsP
    rw [hsplit, identityLoop_first_success p.Identity none pre r post hpre hr]
  · intro init rlast hsplit hfail
    unfold evaluateIdentityConfigsP
    rw [hsplit, identityLoop_all_fail p.Identity none _
      (by rw [← hsplit]; exact hfail), lastErrorOf_append_single]

/-- Witness for claim C3: a failure followed by two successes stores the
first success and returns no error. -/
theorem claim_C3_witness :
    evaluateIdentityConfigsP
      ([⟨0, none, some "e1".toList⟩, ⟨1, some true, none⟩, ⟨2, some false, none⟩] :
        List (EvaluationResponse Nat Bool (List Char)))
      (NewAuthPipeline 9 : AuthPipeline Nat Nat Nat Bool Nat) =
      ({ (NewAuthPipeline 9 : AuthPipeline Nat Nat Nat Bool Nat) with
          Identity := [(1, some true)] }, none) := by
  exact (claim_C3 (NewAuthPipeline 9)
    ([⟨0, none, some "e1".toList⟩, ⟨1, some true, none⟩, ⟨2, some false, none⟩] :
      List (EvaluationResponse Nat Bool (List Char)))).1
    [⟨0, none, some "e1".toList⟩] ⟨1, some true, none⟩ [⟨2, some false, none⟩]
    rfl (by decide) rfl

/-- Claim C7 (confirmed): the metadata phase stores, for each config key,
the object of the last successful response for that key, leaves keys with
no successful response untouched (failed responses are discarded), touches
no other pipeline field, and the error returned by `Evaluate` does not
depend on the metadata responses, so the metadata phase never causes
`Evaluate` to fail. -/
theorem claim_C7 (p : AuthPipeline IC MC AC V RQ)
    (resps : List (EvaluationResponse MC V E)) (c : MC) :
    (goMapLookup (evaluateMetadataConfigsP resps p).Metadata c =
      (lastSuccessObjFor c resps <|> goMapLookup p.Metadata c)) ∧
    ((∀ r ∈ resps, r.error ≠ none) → evaluateMetadataConfigsP resps p = p) ∧
    ((evaluateMetadataConfigsP resps p).Identity = p.Identity ∧
      (evaluateMetadataConfigsP resps p).Authorization = p.Authorization ∧
      (evaluateMetadataConfigsP resps p).Request = p.Request) ∧
    (∀ (api : APIConfig IC MC AC) iresps aresps
        (rs rs' : List (EvaluationResponse MC V E)),
      (Evaluate p ⟨api, iresps, rs, aresps⟩).2 =
        (Evaluate p ⟨api, iresps, rs', aresps⟩).2) := by
  refine ⟨?_, ?_, ⟨rfl, rfl, rfl⟩, ?_⟩
  · exact metadataLoop_lookup p.Metadata resps c
  · intro hfail
    unfold evaluateMetadataConfigsP
    rw [metadataLoop_no_success p.Metadata resps hfail]
  · intro api iresps aresps rs rs'
    rcases hid : evaluateIdentityConfigsP iresps p with ⟨p1, oe⟩
    cases oe with
    | some e =>
      unfold Evaluate
      simp only []
      rw [hid]
      rfl
    | none =>
      unfold Evaluate
      simp only []
      rw [hid]
      simp [evaluateRest, evaluateAuthorizationConfigsP, evaluateMetadataConfigsP]

/-- Witness for claim C7: a concrete all-failing metadata response list
leaves the pipeline unchanged. -/
theorem claim_C7_witness :
    evaluateMetadataConfigsP
      ([⟨3, none, some "boom".toList⟩] : List (EvaluationResponse Nat Bool (List Char)))
      (NewAuthPipeline 5 : AuthPipeline Nat Nat Nat Bool Nat) =
      (NewAuthPipeline 5 : AuthPipeline Nat Nat Nat Bool Nat) := by
  exact (claim_C7 (NewAuthPipeline 5)
    ([⟨3, none, some "boom".toList⟩] : List (EvaluationResponse Nat Bool (List Char)))
    3).2.1 (by decide)

theorem GetResolvedIdentity_snd (l : List (IC × Option V)) :
    (GetResolvedIdentity l).2 = ((l.find? fun e => e.2.isSome).bind fun e => e.2) := by
  induction l with
  | nil => rfl
  | cons e rest ih =>
    obtain ⟨c, o⟩ := e
    cases o with
    | some v =>
      rw [List.find?_cons_of_pos _ (by simp)]
      rfl
    | none =>
      rw [List.find?_cons_of_neg _ (by simp)]
      exact ih

theorem GetResolvedMetadata_eq_filterMap (l : List (MC × Option V)) :
    GetResolvedMetadata l =
      l.filterMap fun e => e.2.map fun o => (e.1, o) := by
  induction l with
  | nil => rfl
  | cons e rest ih =>
    obtain ⟨c, o⟩ := e
    cases o with
    | some v => simp [GetResolvedMetadata, List.filterMap_cons, ih]
    | none => simp [GetResolvedMetadata, List.filterMap_cons, ih]

/-- Claim C8 (confirmed): `GetDataForAuthorization` returns the request's
attribute context under `"context"`, and under `"auth"` the object of the
first non-null identity entry (null if none) and the map from each
metadata config's name to its resolved object with null-valued entries
excluded. -/
theorem claim_C8 (getName : MC → Str) (p : AuthPipeline IC MC AC V RQ) :
    (GetDataForAuthorization getName p).Context = p.Request ∧
    (GetDataForAuthorization getName p).identity =
      ((p.Identity.find? fun e => e.2.isSome).bind fun e => e.2) ∧
    (GetDataForAuthorization getName p).metadata =
      buildNamedMetadata getName
        (p.Metadata.filterMap fun e => e.2.map fun o => (e.1, o)) [] := by
  refine ⟨rfl, ?_, ?_⟩
  · exact GetResolvedIdentity_snd p.Identity
  · show buildNamedMetadata getName (GetResolvedMetadata p.Metadata) [] = _
    rw [GetResolvedMetadata_eq_filterMap]

end PipelineTheorems

section PatternMatcherTheorems

theorem callRules_all_ok_iff (rc : String → Except String (String → Bool))
    (aj : JSON) (rules : List JSONPatternMatchingRule) :
    callRules rc aj rules = (true, none) ↔
      ∀ r ∈ rules, evalRule rc aj r = .ok := by
  induction rules with
  | nil => simp [callRules]
  | cons rule rest ih =>
    cases h : evalRule rc aj rule with
    | ok =>
      simp only [callRules, h, ih]
      constructor
      · intro hall r hr
        rcases List.mem_cons.mp hr with hr1 | hr1
        · rw [hr1]; exact h
        · exact hall r hr1
      · intro hall r hr
        exact hall r (List.mem_cons_of_mem _ hr)
    | unauthorized =>
      constructor
      · intro hx
        simp [callRules, h] at hx
      · intro hall
        have := hall rule (List.mem_cons_self _ _)
        rw [h] at this
        cases this
    | compileErr msg =>
      constructor
      · intro hx
        simp [callRules, h] at hx
      · intro hall
        have := hall rule (List.mem_cons_self _ _)
        rw [h] at this
        cases this

theorem callRules_skip_ok (rc : String → Except String (String → Bool))
    (aj : JSON) (pre rest : List JSONPatternMatchingRule)
    (hpre : ∀ q ∈ pre, evalRule rc aj q = .ok) :
    callRules rc aj (pre ++ rest) = callRules rc aj rest := by
  induction pre with
  | nil => rfl
  | cons q qs ih =>
    have hq := hpre q (List.mem_cons_self _ _)
    simp only [List.cons_append, callRules, hq]
    exact ih fun x hx => hpre x (List.mem_cons_of_mem _ hx)

/-- Claim C4 (confirmed, spec-modelled): the pattern-matching evaluator
returns `(true, nil)` exactly when every rule's operator holds for its
resolved selector value (in particular for the empty rule list), and
otherwise the first non-holding rule decides the result: `(false,
"Unauthorized")` when it fails its operator, `(false, <parse error>)`
when it is a `matches` rule whose value does not compile. -/
theorem claim_C4 (rc : String → Except String (String → Bool)) (authJSON : JSON)
    (jm : JSONPatternMatching) :
    (jm.Rules = [] → jm.Call rc authJSON = (true, none)) ∧
    (jm.Call rc authJSON = (true, none) ↔
      ∀ rule ∈ jm.Rules, evalRule rc authJSON rule = .ok) ∧
    (∀ pre rule post, jm.Rules = pre ++ rule :: post →
      (∀ q ∈ pre, evalRule rc authJSON q = .ok) →
      evalRule rc authJSON rule = .unauthorized →
      jm.Call rc authJSON = (false, some .unauthorized)) ∧
    (∀ pre rule post msg, jm.Rules = pre ++ rule :: post →
      (∀ q ∈ pre, evalRule rc authJSON q = .ok) →
      evalRule rc authJSON rule = .compileErr msg →
      jm.Call rc authJSON = (false, some (.regexParseErr msg))) := by
  refine ⟨?_, ?_, ?_, ?_⟩
  · intro h
    unfold JSONPatternMatching.Call
    rw [h]
    rfl
  · exact callRules_all_ok_iff rc authJSON jm.Rules
  · intro pre rule post hsplit hpre hr
    unfold JSONPatternMatching.Call
    rw [hsplit, callRules_skip_ok rc authJSON pre _ hpre]
    simp [callRules, hr]
  · intro pre rule post msg hsplit hpre hr
    unfold JSONPatternMatching.Call
    rw [hsplit, callRules_skip_ok rc authJSON pre _ hpre]
    simp [callRules, hr]

/-- Witness for claim C4 at a `TestCall` scenario: one passing `eq` rule
followed by a failing `eq` rule denies with `"Unauthorized"`. -/
theorem claim_C4_witness :
    JSONPatternMatching.Call
      ⟨[⟨"context.request.http.headers.x-secret-header", .eq, "no-one-knows"⟩,
        ⟨"context.request.http.headers.x-secret-header", .eq, "other-expected"⟩]⟩
      goRegexOracle testAuthJSON = (false, some .unauthorized) := by
  exact (claim_C4 goRegexOracle testAuthJSON
    ⟨[⟨"context.request.http.headers.x-secret-header", .eq, "no-one-knows"⟩,
      ⟨"context.request.http.headers.x-secret-header", .eq, "other-expected"⟩]⟩).2.2.1
    [⟨"context.request.http.headers.x-secret-header", .eq, "no-one-knows"⟩]
    ⟨"context.request.http.headers.x-secret-header", .eq, "other-expected"⟩
    [] rfl (by decide) (by decide)

/-- `TestCall` row: `eq` with the expected value allows. -/
theorem testCall_eq_allow :
    JSONPatternMatching.Call
      ⟨[⟨"context.request.http.headers.x-secret-header", .eq, "no-one-knows"⟩]⟩
      goRegexOracle testAuthJSON = (true, none) := by decide

/-- `TestCall` row: `neq` with a different value allows. -/
theorem testCall_neq_allow :
    JSONPatternMatching.Call
      ⟨[⟨"context.request.http.headers.x-secret-header", .neq, "other-expected"⟩]⟩
      goRegexOracle testAuthJSON = (true, none) := by decide

/-- `TestCall` row: `incl` with a present element allows, with an absent
element denies. -/
theorem testCall_incl :
    JSONPatternMatching.Call ⟨[⟨"auth.metadata.letters", .incl, "a"⟩]⟩
        goRegexOracle testAuthJSON = (true, none) ∧
    JSONPatternMatching.Call ⟨[⟨"auth.metadata.letters", .incl, "d"⟩]⟩
        goRegexOracle testAuthJSON = (false, some .unauthorized) := by
  constructor <;> decide

/-- `TestCall` row: `excl` with an absent element allows, with a present
element denies. -/
theorem testCall_excl :
    JSONPatternMatching.Call ⟨[⟨"auth.metadata.letters", .excl, "d"⟩]⟩
        goRegexOracle testAuthJSON = (true, none) ∧
    JSONPatternMatching.Call ⟨[⟨"auth.metadata.letters", .excl, "b"⟩]⟩
        goRegexOracle testAuthJSON = (false, some .unauthorized) := by
  constructor <;> decide

/-- `TestCall` row: `matches "(.+)-knows"` allows against
`x-secret-header`, `matches "(\d)+"` denies. -/
theorem testCall_matches :
    JSONPatternMatching.Call
        ⟨[⟨"context.request.http.headers.x-secret-header", .matches, "(.+)-knows"⟩]⟩
        goRegexOracle testAuthJSON = (true, none) ∧
    JSONPatternMatching.Call
        ⟨[⟨"context.request.http.headers.x-secret-header", .matches, "(\\d)+"⟩]⟩
        goRegexOracle testAuthJSON = (false, some .unauthorized) := by
  constructor <;> decide

/-- `TestCall` row: an invalid regular expression is surfaced as a parse
error (the model's message differs textually from Go's
"error parsing regexp: …" prefix). -/
theorem testCall_invalid_regex :
    ∃ msg, JSONPatternMatching.Call
      ⟨[⟨"context.request.http.headers.x-secret-header", .matches, "$$^[not-a-regex"⟩]⟩
      goRegexOracle testAuthJSON = (false, some (.regexParseErr msg)) := by
  exact ⟨"missing closing ]", by decide⟩

/-- Claim C10 (confirmed): the query extractor splices `keySelector` into
a regular expression.  With the metacharacter `.` in the key, `a.b`
matches the path `?aXb=v` although the literal search finds nothing; and
for the key `a(` — not a valid regex, and yielding an invalid constructed
pattern — `MustCompile` fails, a Go panic, for every path.  So extraction
with `in="query"` is not total over arbitrary key selectors. -/
theorem claim_C10 :
    (∃ keyName path,
      getCredFromQuery path keyName ≠ literalQuerySearch path keyName ∧
      literalQuerySearch path keyName = .err credentialNotFoundMsg ∧
      getCredFromQuery path keyName = .ok "v".toList) ∧
    (∃ keyName msg,
      regexCompileErr keyName = some msg ∧
      regexCompileErr (queryPattern keyName) = some msg ∧
      ∀ path, getCredFromQuery path keyName = .panicked msg) := by
  constructor
  · refine ⟨"a.b".toList, "?aXb=v".toList, ?_, ?_, ?_⟩ <;> decide
  · refine ⟨"a(".toList, "missing closing )".toList, by decide, ?_, ?_⟩
    · decide
    · intro path
      have hc : regexCompileErr (queryPattern "a(".toList) =
          some "missing closing )".toList := by decide
      unfold getCredFromQuery
      cases hq : regexCompile (queryPattern "a(".toList) with
      | error e =>
        have he : e = "missing closing )".toList := by
          unfold regexCompileErr at hc
          rw [hq] at hc
          exact Option.some.inj hc
        rw [he]
      | ok re =>
        exfalso
        unfold regexCompileErr at hc
        rw [hq] at hc
        cases hc

/-- The spec's own query example holds in the model: path
`/p?foo=1&token=xyz&bar=2` with key `token` yields `xyz`. -/
theorem query_spec_example :
    getCredFromQuery "/p?foo=1&token=xyz&bar=2".toList "token".toList =
      .ok "xyz".toList := by decide

end PatternMatcherTheorems

end Authorino
